import Mathlib

/-!
Verification of the image-selection controller
(`src/lib/gui/pages/main/controllers/image-selection.js`).

The controller is shallowly embedded below: JavaScript strings become
`String`, `null` becomes `none`, thrown-and-swallowed exceptions become
explicit branches, and the side effects issued by `checkForNewImage`
(the `selectImageByPath` call and the `download-mcu` IPC message) are
collected into an explicit effect list.
-/

namespace Etcher

/-- JavaScript `Array.prototype.sort()` compares strings by code units.
`charListLe` is that lexicographic order on the underlying character
lists (all relevant filenames are ASCII, where code-unit order and
scalar-value order agree). -/
def charListLe : List Char → List Char → Bool
  | [], _ => true
  | _ :: _, [] => false
  | a :: as, b :: bs =>
    if a.toNat = b.toNat then charListLe as bs else decide (a.toNat < b.toNat)

/-- Lexicographic order on strings, as used by JavaScript `sort()`. -/
def strLe (x y : String) : Bool :=
  charListLe x.data y.data

/-- The same order as a propositional relation, for `List.insertionSort`. -/
def strLeR (x y : String) : Prop :=
  strLe x y = true

instance : DecidableRel strLeR := fun x y =>
  inferInstanceAs (Decidable (strLe x y = true))

/-- JavaScript `String.prototype.replace` with a string pattern replaces
only the first occurrence of the pattern (scanning left to right). -/
def replaceFirst (s : List Char) (pat rep : List Char) : List Char :=
  match s with
  | [] => if pat = [] then rep else []
  | c :: rest =>
    if pat.isPrefixOf (c :: rest) then rep ++ (c :: rest).drop pat.length
    else c :: replaceFirst rest pat rep

/-- The character suffix `".img.zip"`. -/
def zipTailChars : List Char :=
  ['.', 'i', 'm', 'g', '.', 'z', 'i', 'p']

/-- Split off the longest run of leading decimal digits (the greedy
`\d+` of the regex and of version parsing). -/
def spanDigits (l : List Char) : List Char × List Char :=
  (l.takeWhile Char.isDigit, l.dropWhile Char.isDigit)

/-- Matcher for the tail of the firmware-filename regex
`/^mcu_v\d+\.\d+\.\d+\.img\.zip$/` after the literal `mcu_v`:
one-or-more digits, a dot, one-or-more digits, a dot, one-or-more
digits, then exactly `.img.zip`.  Greedy digit runs are exact here
because `\d` and `\.` are disjoint character classes. -/
def mcuTail (l : List Char) : Bool :=
  match spanDigits l with
  | (_ :: _, '.' :: r2) =>
    match spanDigits r2 with
    | (_ :: _, '.' :: r4) =>
      match spanDigits r4 with
      | (_ :: _, r5) => decide (r5 = zipTailChars)
      | _ => false
    | _ => false
  | _ => false

/-- Full matcher for `/^mcu_v\d+\.\d+\.\d+\.img\.zip$/` (line 218 of the
controller): the first five characters are `mcu_v` and the rest matches
`mcuTail`. -/
def matchesMcu (f : String) : Bool :=
  decide (f.data.take 5 = ['m', 'c', 'u', '_', 'v']) && mcuTail (f.data.drop 5)

/-- The shape the regex is meant to recognise, stated structurally:
`mcu_v<digits>.<digits>.<digits>.img.zip` with nonempty digit runs. -/
def mcuShape (f : String) : Prop :=
  ∃ a b c : List Char, a ≠ [] ∧ b ≠ [] ∧ c ≠ [] ∧
    (∀ ch ∈ a, ch.isDigit = true) ∧ (∀ ch ∈ b, ch.isDigit = true) ∧
    (∀ ch ∈ c, ch.isDigit = true) ∧
    f.data = 'm' :: 'c' :: 'u' :: '_' :: 'v' ::
      (a ++ '.' :: (b ++ '.' :: (c ++ zipTailChars)))

/-- `dirs.filter(file => file.match(/^mcu_v\d+\.\d+\.\d+\.img\.zip$/)).sort().reverse()`
from line 218: keep matching filenames, sort ascending (JS default
string sort), then reverse so index 0 is the lexicographically largest. -/
def mcuImagesOf (dirs : List String) : List String :=
  (List.insertionSort strLeR (dirs.filter fun f => matchesMcu f)).reverse

/-- `mcuImages[0].replace('mcu_', '').replace('.img.zip', '')` from
line 223: strip the first occurrence of `mcu_` and then the first
occurrence of `.img.zip` from the filename. -/
def stripName (f : String) : String :=
  ⟨replaceFirst (replaceFirst f.data ['m', 'c', 'u', '_'] []) zipTailChars []⟩

/-- Digits-to-number conversion for version components. -/
def digitsToNat (l : List Char) : Nat :=
  l.foldl (fun n c => n * 10 + (c.toNat - 48)) 0

/-- Modelled from the spec: the npm `semver` dependency is an external
library, not part of this repository.  §4.1 specifies the comparator on
dotted numeric versions `<major>.<minor>.<patch>` (an optional leading
`v` is accepted, as npm `semver` does for tags like `v1.3.0`), failing
on input that does not parse.  Pre-release tags are not needed by any
claim and are not modelled. -/
def semverParse (s : String) : Option (Nat × Nat × Nat) :=
  let l := match s.data with
    | 'v' :: r => r
    | r => r
  match spanDigits l with
  | (a@(_ :: _), '.' :: r2) =>
    match spanDigits r2 with
    | (b@(_ :: _), '.' :: r4) =>
      match spanDigits r4 with
      | (c@(_ :: _), []) => some (digitsToNat a, digitsToNat b, digitsToNat c)
      | _ => none
    | _ => none
  | _ => none

/-- Standard precedence on parsed versions: major, then minor, then patch. -/
def semverCmp : Nat × Nat × Nat → Nat × Nat × Nat → Ordering
  | (a1, a2, a3), (b1, b2, b3) =>
    (compare a1 b1).then ((compare a2 b2).then (compare a3 b3))

/-- Modelled from the spec (§4.1): `semver.compare` on version strings;
`none` models the exception thrown on unparseable input. -/
def semverCompareStr (x y : String) : Option Ordering :=
  match semverParse x, semverParse y with
  | some a, some b => some (semverCmp a b)
  | _, _ => none

/-- JavaScript truthiness of a nullable string: `null` and `""` are
falsy, every other string is truthy. -/
def jsTruthy : Option String → Bool
  | none => false
  | some s => s != ""

/-- `updateAvailable` (lines 255-260):
`if (this.availableVersion && this.currentVersion && semver.compare(...) > 0) return true; return false`.
The result is `none` when `semver.compare` throws (both operands truthy
but one unparseable); the `&&` chain short-circuits, so absence of
either operand yields `some false` without invoking the comparator. -/
def updateAvailable (av cv : Option String) : Option Bool :=
  if jsTruthy av && jsTruthy cv then
    match semverCompareStr (av.getD "") (cv.getD "") with
    | some o => some (o == Ordering.gt)
    | none => none
  else some false

/-- One element of the GitHub release's `assets` array. -/
structure Asset where
  browser_download_url : String
deriving DecidableEq

/-- The JSON body of the latest-release response.  A missing `assets`
field behaves identically to an empty array at both use sites (falsy or
zero-length at line 210; a `TypeError` on `json.assets[0]` at line 235),
so both are modelled by `assets = []`. -/
structure ReleaseJson where
  tag_name : String
  assets : List Asset
deriving DecidableEq

/-- The controller's mutable fields (lines 40-42): `downloading`,
`availableVersion`, `currentVersion` (`none` models `null`). -/
structure CheckState where
  downloading : Bool
  availableVersion : Option String
  currentVersion : Option String
deriving DecidableEq

/-- Observable side effects issued by `checkForNewImage`: the
auto-selection call `selectImageByPath(imagePath)` (line 230) and the
`ipcRenderer.send('download-mcu', url)` download request (line 235). -/
inductive Effect where
  | selectImagePath (path : String)
  | sendDownload (url : String)
deriving DecidableEq

/-- Lines 233-236: `this.downloading = true` followed by
`ipcRenderer.send('download-mcu', json.assets[0].browser_download_url)`.
The flag is assigned first; if `json` is `null` or has no first asset,
evaluating the argument throws a `TypeError` that the surrounding
`try`/`catch` swallows, so `downloading` stays `true` while no request
is ever sent. -/
def tryDownload (s : CheckState) (json : Option ReleaseJson)
    (effs : List Effect) : CheckState × List Effect :=
  let s2 := { s with downloading := true }
  match json with
  | some j =>
    match j.assets with
    | a :: _ => (s2, effs ++ [Effect.sendDownload a.browser_download_url])
    | [] => (s2, effs)
  | none => (s2, effs)

/-- `checkForNewImage(allowDownload)` (lines 191-245), from the point
where the fetch has settled.  `json` is the settled fetch result
(`none` models a network error or malformed body, both converted to
`null` by the first `.catch`).  `dir` is the downloads-directory
listing (`none` models `fs.readdirSync` throwing, which aborts the
`try` block before anything else runs).  Within the `try` block, in
source order: set `currentVersion` and compute `newImageAvailable`
(line 222-226, where `updateAvailable` may throw), auto-select the
newest local image (228-231), then request a download (233-236). -/
def checkForNewImage (downloadsDir : String) (allowDownload : Bool)
    (json : Option ReleaseJson) (dir : Option (List String))
    (s : CheckState) : CheckState × List Effect :=
  let s1 := match json with
    | some j =>
      if j.assets.length > 0 then { s with availableVersion := some j.tag_name }
      else s
    | none => s
  match dir with
  | none => (s1, [])
  | some dirs =>
    match mcuImagesOf dirs with
    | [] =>
      if allowDownload then tryDownload s1 json [] else (s1, [])
    | top :: _ =>
      let s2 := { s1 with currentVersion := some (stripName top) }
      match updateAvailable s2.availableVersion s2.currentVersion with
      | none => (s2, [])
      | some nia =>
        let effs := [Effect.selectImagePath (downloadsDir ++ "/" ++ top)]
        if nia && allowDownload then tryDownload s2 json effs
        else (s2, effs)

/-- The `download-mcu` completion handler (lines 47-53) clears the
`downloading` flag; on success it re-selects and re-checks with fresh
inputs (not needed by any claim below). -/
def onDownloadSignal (s : CheckState) : CheckState :=
  { s with downloading := false }

/-- Number of `download-mcu` requests in an effect list. -/
def countDownloadRequests (l : List Effect) : Nat :=
  l.countP fun e =>
    match e with
    | Effect.sendDownload _ => true
    | _ => false

/-- JavaScript string coercion of a nullable string under `+`:
`"Download " + null` yields `"Download null"`. -/
def jsStringOfNullable : Option String → String
  | none => "null"
  | some s => s

/-- `downloadPrompt` (lines 247-253). -/
def downloadPrompt (s : CheckState) : String :=
  if s.downloading then "Downloading..."
  else "Download " ++ jsStringOfNullable s.availableVersion

/-- A candidate image as seen by `selectImage`: the two registry
predicates evaluated on its path, and its `hasMBR` field. -/
structure Image where
  supported : Bool
  looksWindows : Bool
  hasMBR : Bool
deriving DecidableEq

/-- The two confirmation messages of lines 111-117. -/
inductive Warning where
  | windowsImage
  | missingPartitionTable
deriving DecidableEq

/-- Observable outcome of one `selectImage` run (lines 94-144):
whether the invalid-image error dialog was shown, which warning (if
any) went to the modal, whether `selectionState.setImage` ran, whether
`reselectImage` ran, and the selection store afterwards. -/
structure SelectResult where
  errorShown : Bool
  warningShown : Option Warning
  committed : Bool
  reselected : Bool
  store : Option Image
deriving DecidableEq

/-- `selectImage(image)` (lines 94-144).  `prev` is the selection
store's prior content; `modalReply` is the boolean the warning modal
resolves to (`true` = the `Change` confirmation label, i.e. discard the
new image and reselect).  When no warning triggers, the chain
`return false` bypasses the modal, so `modalReply` is never consulted. -/
def selectImage (prev : Option Image) (img : Image) (modalReply : Bool) :
    SelectResult :=
  if img.supported = false then
    { errorShown := true, warningShown := none, committed := false,
      reselected := false, store := prev }
  else
    let message : Option Warning :=
      if img.looksWindows then some Warning.windowsImage
      else if img.hasMBR = false then some Warning.missingPartitionTable
      else none
    let shouldChange : Bool :=
      match message with
      | some _ => modalReply
      | none => false
    if shouldChange then
      { errorShown := false, warningShown := message, committed := false,
        reselected := true, store := prev }
    else
      { errorShown := false, warningShown := message, committed := true,
        reselected := false, store := some img }

/-- `mainSupportedExtensions` (lines 66-70):
`_.intersection(['img','iso','zip'], getAllExtensions())` — the values
of the (duplicate-free) first list that also occur in the registry's
extension list `all`. -/
def mainSupportedExtensions (all : List String) : List String :=
  (["img", "iso", "zip"]).filter fun e => decide (e ∈ all)

/-- `extraSupportedExtensions` (lines 78-81):
`_.difference(getAllExtensions(), mainSupportedExtensions).sort()` —
the registry's extensions not in the main list, sorted ascending by
JavaScript's default string sort. -/
def extraSupportedExtensions (all : List String) : List String :=
  List.insertionSort strLeR
    (all.filter fun e => !decide (e ∈ mainSupportedExtensions all))

/-- Re-entrancy scenario (spec §8): remote release `v1.3.0` with one
asset, downloads directory holding `mcu_v1.2.0.img.zip`. -/
def reentryJson : Option ReleaseJson :=
  some ⟨"v1.3.0", [⟨"https://example.com/mcu_v1.3.0.img.zip"⟩]⟩

/-- The downloads-directory listing of the re-entrancy scenario. -/
def reentryDirs : Option (List String) :=
  some ["mcu_v1.2.0.img.zip"]

/-- First `checkForNewImage(true)` call of the re-entrancy scenario,
from the idle initial state. -/
def reentryFirst : CheckState × List Effect :=
  checkForNewImage "/downloads" true reentryJson reentryDirs ⟨false, none, none⟩

/-- Second `checkForNewImage(true)` call, issued while the download
started by the first call is still in flight (no completion signal has
arrived, so the state is exactly `reentryFirst`'s). -/
def reentrySecond : CheckState × List Effect :=
  checkForNewImage "/downloads" true reentryJson reentryDirs reentryFirst.1

/-! ### Properties of the string order used by `sort()` -/

theorem charListLe_refl : ∀ l : List Char, charListLe l l = true
  | [] => rfl
  | a :: as => by
    simp only [charListLe]
    rw [if_pos trivial]
    exact charListLe_refl as

theorem charListLe_total : ∀ x y : List Char,
    charListLe x y = true ∨ charListLe y x = true
  | [], _ => Or.inl rfl
  | _ :: _, [] => Or.inr rfl
  | a :: as, b :: bs => by
    by_cases h : a.toNat = b.toNat
    · simp only [charListLe]
      rw [if_pos h, if_pos h.symm]
      exact charListLe_total as bs
    · have h' : ¬ b.toNat = a.toNat := fun hh => h hh.symm
      simp only [charListLe, if_neg h, if_neg h', decide_eq_true_eq]
      omega

theorem charListLe_trans : ∀ x y z : List Char,
    charListLe x y = true → charListLe y z = true → charListLe x z = true
  | [], _, _ => by intro _ _; rfl
  | a :: as, [], _ => by intro h _; simp [charListLe] at h
  | _ :: _, _ :: _, [] => by intro _ h; simp [charListLe] at h
  | a :: as, b :: bs, c :: cs => by
    intro h1 h2
    by_cases hab : a.toNat = b.toNat <;> by_cases hbc : b.toNat = c.toNat
    · rw [charListLe, if_pos (hab.trans hbc)]
      rw [charListLe, if_pos hab] at h1
      rw [charListLe, if_pos hbc] at h2
      exact charListLe_trans as bs cs h1 h2
    · rw [charListLe, if_neg hbc, decide_eq_true_eq] at h2
      have hac : a.toNat < c.toNat := hab ▸ h2
      rw [charListLe, if_neg (by omega), decide_eq_true_eq]
      exact hac
    · rw [charListLe, if_neg hab, decide_eq_true_eq] at h1
      have hac : a.toNat < c.toNat := hbc ▸ h1
      rw [charListLe, if_neg (by omega), decide_eq_true_eq]
      exact hac
    · rw [charListLe, if_neg hab, decide_eq_true_eq] at h1
      rw [charListLe, if_neg hbc, decide_eq_true_eq] at h2
      rw [charListLe, if_neg (by omega), decide_eq_true_eq]
      omega

instance : IsTotal String strLeR :=
  ⟨fun x y => charListLe_total x.data y.data⟩

instance : IsTrans String strLeR :=
  ⟨fun x y z h1 h2 => charListLe_trans x.data y.data z.data h1 h2⟩

theorem strLe_refl (x : String) : strLe x x = true :=
  charListLe_refl x.data

/-! ### Properties of `replaceFirst` -/

theorem replaceFirst_of_isPrefixOf (s pat rep : List Char)
    (h : pat.isPrefixOf s = true) :
    replaceFirst s pat rep = rep ++ s.drop pat.length := by
  cases s with
  | nil =>
    have : pat = [] := by
      cases pat with
      | nil => rfl
      | cons p pr => simp [List.isPrefixOf] at h
    simp [replaceFirst, this]
  | cons c rest => simp [replaceFirst, h]

theorem replaceFirst_skip (p0 : Char) (pr rep : List Char) :
    ∀ l t : List Char, (∀ x ∈ l, x ≠ p0) →
      replaceFirst (l ++ t) (p0 :: pr) rep = l ++ replaceFirst t (p0 :: pr) rep
  | [], t, _ => by simp
  | c :: l', t, h => by
    have hc : c ≠ p0 := h c (List.mem_cons_self c l')
    have hpre : (p0 :: pr).isPrefixOf (c :: (l' ++ t)) = false := by
      simp [List.isPrefixOf]
      intro he
      exact absurd he.symm hc
    rw [List.cons_append, replaceFirst, hpre]
    simp only [Bool.false_eq_true, if_false]
    rw [replaceFirst_skip p0 pr rep l' t (fun x hx => h x (List.mem_cons_of_mem c hx))]
    rfl

theorem replaceFirst_step_two (p0 p1 : Char) (pr rep : List Char)
    (d : Char) (rest : List Char) (h : d ≠ p1) :
    replaceFirst (p0 :: d :: rest) (p0 :: p1 :: pr) rep
      = p0 :: replaceFirst (d :: rest) (p0 :: p1 :: pr) rep := by
  have hpre : (p0 :: p1 :: pr).isPrefixOf (p0 :: d :: rest) = false := by
    simp [List.isPrefixOf]
    intro he
    exact absurd he.symm h
  rw [replaceFirst, hpre]
  simp

/-- A digit is never equal to a non-digit character. -/
theorem digit_ne_of_not_digit {x y : Char} (hx : x.isDigit = true)
    (hy : y.isDigit = false) : x ≠ y := by
  intro h
  rw [h, hy] at hx
  exact Bool.noConfusion hx

/-! ### Characterisation of the firmware-filename matcher -/

theorem spanDigits_append (l : List Char) (hl : ∀ x ∈ l, x.isDigit = true)
    (c : Char) (hc : c.isDigit = false) (t : List Char) :
    spanDigits (l ++ c :: t) = (l, c :: t) := by
  induction l with
  | nil => simp [spanDigits, List.takeWhile, List.dropWhile, hc]
  | cons x l' ih =>
    have hx : x.isDigit = true := hl x (List.mem_cons_self x l')
    have ih' := ih fun y hy => hl y (List.mem_cons_of_mem x hy)
    simp only [spanDigits, Prod.mk.injEq] at ih'
    simp [spanDigits, List.takeWhile, List.dropWhile, hx, ih'.1, ih'.2]

theorem spanDigits_eq_parts (l a r : List Char) (h : spanDigits l = (a, r)) :
    l = a ++ r ∧ (∀ x ∈ a, x.isDigit = true) := by
  simp only [spanDigits, Prod.mk.injEq] at h
  constructor
  · rw [← h.1, ← h.2]
    exact (List.takeWhile_append_dropWhile Char.isDigit l).symm
  · intro x hx
    rw [← h.1] at hx
    exact List.mem_takeWhile_imp hx

theorem mcuTail_iff (l : List Char) :
    mcuTail l = true ↔
      ∃ a b c : List Char, a ≠ [] ∧ b ≠ [] ∧ c ≠ [] ∧
        (∀ ch ∈ a, ch.isDigit = true) ∧ (∀ ch ∈ b, ch.isDigit = true) ∧
        (∀ ch ∈ c, ch.isDigit = true) ∧
        l = a ++ '.' :: (b ++ '.' :: (c ++ zipTailChars)) := by
  constructor
  · intro h
    unfold mcuTail at h
    split at h
    next a0 a' r2 heq =>
      obtain ⟨hl, hadig⟩ := spanDigits_eq_parts l (a0 :: a') ('.' :: r2) heq
      split at h
      next b0 b' r4 heq2 =>
        obtain ⟨hr2, hbdig⟩ := spanDigits_eq_parts r2 (b0 :: b') ('.' :: r4) heq2
        split at h
        next c0 c' r5 heq3 =>
          obtain ⟨hr4, hcdig⟩ := spanDigits_eq_parts r4 (c0 :: c') r5 heq3
          have hr5 : r5 = zipTailChars := of_decide_eq_true h
          refine ⟨a0 :: a', b0 :: b', c0 :: c', by simp, by simp, by simp,
            hadig, hbdig, hcdig, ?_⟩
          rw [hl, hr2, hr4, hr5]
        next => simp at h
      next => simp at h
    next => simp at h
  · rintro ⟨a, b, c, ha, hb, hc, hadig, hbdig, hcdig, hl⟩
    obtain ⟨a0, a', rfl⟩ := List.exists_cons_of_ne_nil ha
    obtain ⟨b0, b', rfl⟩ := List.exists_cons_of_ne_nil hb
    obtain ⟨c0, c', rfl⟩ := List.exists_cons_of_ne_nil hc
    have hdot : ('.' : Char).isDigit = false := by decide
    have h1 : spanDigits l = (a0 :: a', '.' :: (b0 :: b' ++ '.' :: (c0 :: c' ++ zipTailChars))) := by
      rw [hl]; exact spanDigits_append _ hadig '.' hdot _
    have h2 : spanDigits (b0 :: b' ++ '.' :: (c0 :: c' ++ zipTailChars))
        = (b0 :: b', '.' :: (c0 :: c' ++ zipTailChars)) :=
      spanDigits_append _ hbdig '.' hdot _
    have h3 : spanDigits (c0 :: c' ++ zipTailChars) = (c0 :: c', zipTailChars) :=
      spanDigits_append _ hcdig '.' hdot _
    unfold mcuTail
    simp only [h1, h2, h3]
    simp

theorem matchesMcu_iff (f : String) : matchesMcu f = true ↔ mcuShape f := by
  unfold matchesMcu mcuShape
  rw [Bool.and_eq_true, decide_eq_true_eq, mcuTail_iff]
  constructor
  · rintro ⟨h5, a, b, c, ha, hb, hc, hadig, hbdig, hcdig, hrest⟩
    refine ⟨a, b, c, ha, hb, hc, hadig, hbdig, hcdig, ?_⟩
    calc f.data = f.data.take 5 ++ f.data.drop 5 := (List.take_append_drop 5 f.data).symm
      _ = 'm' :: 'c' :: 'u' :: '_' :: 'v' :: (a ++ '.' :: (b ++ '.' :: (c ++ zipTailChars))) := by
          rw [h5, hrest]
          rfl
  · rintro ⟨a, b, c, ha, hb, hc, hadig, hbdig, hcdig, hdata⟩
    rw [hdata]
    exact ⟨rfl, a, b, c, ha, hb, hc, hadig, hbdig, hcdig, rfl⟩

/-! ### What the two `replace` calls produce on a matching filename -/

theorem stripName_eq (a b c : List Char)
    (hadig : ∀ ch ∈ a, ch.isDigit = true) (hbdig : ∀ ch ∈ b, ch.isDigit = true)
    (hcdig : ∀ ch ∈ c, ch.isDigit = true) (hb : b ≠ []) (hc : c ≠ []) :
    stripName ⟨'m' :: 'c' :: 'u' :: '_' :: 'v' ::
        (a ++ '.' :: (b ++ '.' :: (c ++ zipTailChars)))⟩
      = ⟨'v' :: (a ++ '.' :: (b ++ '.' :: c))⟩ := by
  obtain ⟨b0, b', rfl⟩ := List.exists_cons_of_ne_nil hb
  obtain ⟨c0, c', rfl⟩ := List.exists_cons_of_ne_nil hc
  have hdotd : ('.' : Char).isDigit = false := by decide
  have hnd : ∀ (l : List Char), (∀ x ∈ l, x.isDigit = true) → ∀ x ∈ l, x ≠ '.' :=
    fun l hl x hx => digit_ne_of_not_digit (hl x hx) hdotd
  unfold stripName
  congr 1
  have h1 : replaceFirst
      ('m' :: 'c' :: 'u' :: '_' :: 'v' :: (a ++ '.' :: (b0 :: b' ++ '.' :: (c0 :: c' ++ zipTailChars))))
      ['m', 'c', 'u', '_'] []
      = 'v' :: (a ++ '.' :: (b0 :: b' ++ '.' :: (c0 :: c' ++ zipTailChars))) := by
    rw [replaceFirst_of_isPrefixOf]
    · rfl
    · simp [List.isPrefixOf]
  rw [h1]
  have hva : ∀ x ∈ 'v' :: a, x ≠ '.' := by
    intro x hx
    rcases List.mem_cons.mp hx with hxv | hxa
    · rw [hxv]; decide
    · exact hnd a hadig x hxa
  have hb0 : b0 ≠ 'i' :=
    digit_ne_of_not_digit (hbdig b0 (List.mem_cons_self b0 b')) (by decide)
  have hc0 : c0 ≠ 'i' :=
    digit_ne_of_not_digit (hcdig c0 (List.mem_cons_self c0 c')) (by decide)
  have s1 : replaceFirst
      (('v' :: a) ++ ('.' :: b0 :: (b' ++ '.' :: c0 :: (c' ++ zipTailChars))))
      zipTailChars []
      = ('v' :: a) ++ replaceFirst ('.' :: b0 :: (b' ++ '.' :: c0 :: (c' ++ zipTailChars)))
        zipTailChars [] :=
    replaceFirst_skip '.' ['i', 'm', 'g', '.', 'z', 'i', 'p'] [] ('v' :: a) _ hva
  have s2 : replaceFirst ('.' :: b0 :: (b' ++ '.' :: c0 :: (c' ++ zipTailChars)))
      zipTailChars []
      = '.' :: replaceFirst (b0 :: (b' ++ '.' :: c0 :: (c' ++ zipTailChars)))
        zipTailChars [] :=
    replaceFirst_step_two '.' 'i' ['m', 'g', '.', 'z', 'i', 'p'] [] b0 _ hb0
  have s3 : replaceFirst ((b0 :: b') ++ ('.' :: c0 :: (c' ++ zipTailChars)))
      zipTailChars []
      = (b0 :: b') ++ replaceFirst ('.' :: c0 :: (c' ++ zipTailChars))
        zipTailChars [] :=
    replaceFirst_skip '.' ['i', 'm', 'g', '.', 'z', 'i', 'p'] [] (b0 :: b') _ (hnd _ hbdig)
  have s4 : replaceFirst ('.' :: c0 :: (c' ++ zipTailChars)) zipTailChars []
      = '.' :: replaceFirst (c0 :: (c' ++ zipTailChars)) zipTailChars [] :=
    replaceFirst_step_two '.' 'i' ['m', 'g', '.', 'z', 'i', 'p'] [] c0 _ hc0
  have s5 : replaceFirst ((c0 :: c') ++ zipTailChars) zipTailChars []
      = (c0 :: c') ++ replaceFirst zipTailChars zipTailChars [] :=
    replaceFirst_skip '.' ['i', 'm', 'g', '.', 'z', 'i', 'p'] [] (c0 :: c') _ (hnd _ hcdig)
  have s6 : replaceFirst zipTailChars zipTailChars [] = [] := by decide
  have inner3 : replaceFirst ('.' :: c0 :: (c' ++ zipTailChars)) zipTailChars []
      = '.' :: ((c0 :: c') ++ ([] : List Char)) :=
    s4.trans (congrArg (fun x => '.' :: x)
      (s5.trans (congrArg (fun x => (c0 :: c') ++ x) s6)))
  have inner2 : replaceFirst ('.' :: b0 :: (b' ++ '.' :: c0 :: (c' ++ zipTailChars)))
      zipTailChars []
      = '.' :: ((b0 :: b') ++ ('.' :: ((c0 :: c') ++ ([] : List Char)))) :=
    s2.trans (congrArg (fun x => '.' :: x)
      (s3.trans (congrArg (fun x => (b0 :: b') ++ x) inner3)))
  have total : replaceFirst
      (('v' :: a) ++ ('.' :: b0 :: (b' ++ '.' :: c0 :: (c' ++ zipTailChars))))
      zipTailChars []
      = ('v' :: a) ++ ('.' :: ((b0 :: b') ++ ('.' :: ((c0 :: c') ++ ([] : List Char))))) :=
    s1.trans (congrArg (fun x => ('v' :: a) ++ x) inner2)
  rw [List.append_nil] at total
  exact total

/-! ### Plumbing facts about `checkForNewImage` -/

theorem tryDownload_fst (s : CheckState) (json : Option ReleaseJson)
    (effs : List Effect) :
    (tryDownload s json effs).1 = { s with downloading := true } := by
  unfold tryDownload
  rcases json with _ | ⟨tag, assets⟩
  · rfl
  · cases assets <;> rfl

theorem checkForNewImage_currentVersion_of_head (dDir : String)
    (ad : Bool) (json : Option ReleaseJson) (dirs : List String)
    (s : CheckState) (top : String) (rest : List String)
    (h : mcuImagesOf dirs = top :: rest) :
    (checkForNewImage dDir ad json (some dirs) s).1.currentVersion
      = some (stripName top) := by
  unfold checkForNewImage
  simp only [h]
  rcases hu : updateAvailable
      (match json with
        | some j =>
          if j.assets.length > 0 then { s with availableVersion := some j.tag_name }
          else s
        | none => s).availableVersion (some (stripName top)) with _ | nia
  · simp [hu]
  · simp only [hu]
    rcases hna : nia && ad
    · simp
    · simp [tryDownload_fst]

/-- The head of `filter(...).sort().reverse()` is a maximum of the
filtered list under the string order used by `sort()`. -/
theorem mcuImagesOf_head_max (dirs : List String) (f : String)
    (rest : List String) (h : mcuImagesOf dirs = f :: rest) :
    f ∈ dirs.filter (fun s => matchesMcu s) ∧
      ∀ x ∈ dirs.filter (fun s => matchesMcu s), strLe x f = true := by
  have hrev : (List.insertionSort strLeR (dirs.filter fun s => matchesMcu s)).reverse
      = f :: rest := h
  have hSeq : List.insertionSort strLeR (dirs.filter fun s => matchesMcu s)
      = rest.reverse ++ [f] := by
    have h2 := congrArg List.reverse hrev
    rw [List.reverse_reverse] at h2
    rw [h2, List.reverse_cons]
  have hsorted : List.Pairwise strLeR (rest.reverse ++ [f]) := by
    rw [← hSeq]
    exact List.sorted_insertionSort strLeR (dirs.filter fun s => matchesMcu s)
  have hmem : ∀ x : String,
      x ∈ dirs.filter (fun s => matchesMcu s) ↔ x ∈ rest.reverse ++ [f] := by
    intro x
    rw [← hSeq]
    exact (List.mem_insertionSort strLeR).symm
  constructor
  · exact (hmem f).mpr (List.mem_append_right _ (List.mem_singleton.mpr rfl))
  · intro x hx
    rcases List.mem_append.mp ((hmem x).mp hx) with hx1 | hx2
    · exact (List.pairwise_append.mp hsorted).2.2 x hx1 f (List.mem_singleton.mpr rfl)
    · rw [List.mem_singleton.mp hx2]
      exact strLe_refl f

/-! ### The claims -/

/-- C1: the claim says that when the remote release client yields no
release (network error, malformed response, or no assets), no download
request is issued and `downloading` remains `false`.  The code
violates the second half: at the failing input (fetch settled to `null`, `allowDownload = true`,
empty downloads directory, idle initial state) no `download-mcu`
request is issued (the effect list is empty), yet `downloading` has
been set to `true` and stays `true`: line 234 runs before line 235
throws on `json.assets`, and the exception is swallowed. -/
theorem c1_none_release_divergence :
    (checkForNewImage "/downloads" true none (some []) ⟨false, none, none⟩).1.downloading
        = true ∧
      (checkForNewImage "/downloads" true none (some []) ⟨false, none, none⟩).2 = [] := by
  constructor <;> rfl

/-- C2: `updateAvailable` returns `true` iff both `availableVersion`
and `currentVersion` are present (non-null, non-empty) and the
semantic-version comparison of the former against the latter yields
greater; it returns `false` whenever either operand is absent, and
`false` when the comparison yields equal or less. -/
theorem c2_updateAvailable_iff (av cv : Option String) :
    (updateAvailable av cv = some true ↔
      (jsTruthy av = true ∧ jsTruthy cv = true ∧
        semverCompareStr (av.getD "") (cv.getD "") = some Ordering.gt)) ∧
    ((jsTruthy av = false ∨ jsTruthy cv = false) →
      updateAvailable av cv = some false) ∧
    (∀ o : Ordering, jsTruthy av = true → jsTruthy cv = true →
      semverCompareStr (av.getD "") (cv.getD "") = some o →
      (o = Ordering.eq ∨ o = Ordering.lt) →
      updateAvailable av cv = some false) := by
  cases htv : jsTruthy av
  · simp [updateAvailable, htv]
  · cases htc : jsTruthy cv
    · simp [updateAvailable, htv, htc]
    · rcases hsc : semverCompareStr (av.getD "") (cv.getD "") with _ | o
      · simp [updateAvailable, htv, htc, hsc]
      · refine ⟨?_, ?_, ?_⟩
        · rw [updateAvailable, htv, htc]
          simp only [Bool.and_self, if_true, hsc]
          cases o <;> decide
        · intro hor
          rcases hor with h | h <;> exact absurd h (by decide)
        · intro o2 _ _ hso hor
          obtain rfl : o = o2 := Option.some.inj hso
          rw [updateAvailable, htv, htc]
          simp only [Bool.and_self, if_true, hsc]
          rcases hor with rfl | rfl <;> decide

/-- C2 witness: `updateAvailable` signals an update for remote
`1.3.0` against local `1.2.0`. -/
theorem c2_witness :
    updateAvailable (some "1.3.0") (some "1.2.0") = some true :=
  (c2_updateAvailable_iff (some "1.3.0") (some "1.2.0")).1.mpr
    ⟨by decide, by decide, by decide⟩

/-- C3: the claim says a second `checkForNewImage` invocation while a
download is in flight never issues a second download request.  The
code has no guard on `downloading`: in the scenario of spec §8 (remote
`v1.3.0`, local `mcu_v1.2.0.img.zip`) the first call issues one
request and sets `downloading`, and the second call, run on the
resulting state before any completion signal, issues a second one. -/
theorem c3_reentrancy_divergence :
    countDownloadRequests reentryFirst.2 = 1 ∧
      reentryFirst.1.downloading = true ∧
      countDownloadRequests reentrySecond.2 = 1 := by
  refine ⟨?_, ?_, ?_⟩ <;> decide

/-- C4 counterexample: the claim says that with `availableVersion`
unset the prompt is `"Download "` with an empty suffix; the code
coerces `null` into the string, producing `"Download null"`. -/
theorem c4_prompt_counterexample :
    downloadPrompt ⟨false, none, none⟩ = "Download null" ∧
      downloadPrompt ⟨false, none, none⟩ ≠ "Download " := by
  constructor
  · rfl
  · decide

/-- C4 amended: `downloadPrompt` returns `"Downloading..."` whenever
`downloading` is true; otherwise `"Download " ++ availableVersion`,
where an unset `availableVersion` is coerced to the string `"null"`
(so the result is `"Download null"`, not `"Download "`). -/
theorem c4_prompt_amended (s : CheckState) :
    (s.downloading = true → downloadPrompt s = "Downloading...") ∧
    (s.downloading = false → s.availableVersion = none →
      downloadPrompt s = "Download null") ∧
    (∀ v : String, s.downloading = false → s.availableVersion = some v →
      downloadPrompt s = "Download " ++ v) := by
  refine ⟨?_, ?_, ?_⟩
  · intro hd
    simp [downloadPrompt, hd]
  · intro hd hv
    simp [downloadPrompt, hd, hv, jsStringOfNullable]
  · intro v hd hv
    simp [downloadPrompt, hd, hv, jsStringOfNullable]

/-- C4 witness: with `availableVersion = "1.3.0"` and not downloading,
the prompt is `"Download 1.3.0"`. -/
theorem c4_prompt_witness :
    downloadPrompt ⟨false, some "1.3.0", none⟩ = "Download " ++ "1.3.0" :=
  (c4_prompt_amended ⟨false, some "1.3.0", none⟩).2.2 "1.3.0" rfl rfl

/-- C5 counterexample: the claim says `currentVersion` records exactly
the `<major>.<minor>.<patch>` dotted-numeric substring of the newest
firmware filename.  For `mcu_v1.2.0.img.zip` the code records
`"v1.2.0"` — `replace('mcu_','')` keeps the `v` — which is not the
dotted-numeric substring `"1.2.0"`. -/
theorem c5_currentVersion_counterexample :
    (checkForNewImage "/downloads" false none (some ["mcu_v1.2.0.img.zip"])
        ⟨false, none, none⟩).1.currentVersion = some "v1.2.0" ∧
      ("v1.2.0" : String) ≠ "1.2.0" := by
  constructor
  · rfl
  · decide

/-- C5 amended: for a downloads directory whose newest matching
firmware file is `mcu_v<major>.<minor>.<patch>.img.zip`, the recorded
`currentVersion` is `v<major>.<minor>.<patch>` — the filename with the
`mcu_` prefix and `.img.zip` suffix stripped, which keeps the leading
`v` in front of the dotted-numeric substring. -/
theorem c5_currentVersion_amended (dDir : String) (ad : Bool)
    (json : Option ReleaseJson) (dirs : List String) (s : CheckState)
    (top : String) (rest : List String) (a b c : List Char)
    (h : mcuImagesOf dirs = top :: rest)
    (htop : top.data = 'm' :: 'c' :: 'u' :: '_' :: 'v' ::
      (a ++ '.' :: (b ++ '.' :: (c ++ zipTailChars))))
    (hadig : ∀ ch ∈ a, ch.isDigit = true) (hbdig : ∀ ch ∈ b, ch.isDigit = true)
    (hcdig : ∀ ch ∈ c, ch.isDigit = true) (hb : b ≠ []) (hc : c ≠ []) :
    (checkForNewImage dDir ad json (some dirs) s).1.currentVersion
      = some ⟨'v' :: (a ++ '.' :: (b ++ '.' :: c))⟩ := by
  rcases top with ⟨d⟩
  have hd : d = 'm' :: 'c' :: 'u' :: '_' :: 'v' ::
      (a ++ '.' :: (b ++ '.' :: (c ++ zipTailChars))) := htop
  subst hd
  rw [checkForNewImage_currentVersion_of_head dDir ad json dirs s _ rest h]
  rw [stripName_eq a b c hadig hbdig hcdig hb hc]

/-- C5 amended witness: the concrete run on `mcu_v1.2.0.img.zip`. -/
theorem c5_currentVersion_witness :
    (checkForNewImage "/downloads" false none (some ["mcu_v1.2.0.img.zip"])
        ⟨false, none, none⟩).1.currentVersion
      = some ⟨'v' :: (['1'] ++ '.' :: (['2'] ++ '.' :: ['0']))⟩ :=
  c5_currentVersion_amended "/downloads" false none ["mcu_v1.2.0.img.zip"]
    ⟨false, none, none⟩ "mcu_v1.2.0.img.zip" [] ['1'] ['2'] ['0']
    (by decide) (by decide) (by decide) (by decide) (by decide)
    (by decide) (by decide)

/-- C6: for every list of directory entries, the firmware-image filter
retains exactly the filenames fully matching
`mcu_v<major>.<minor>.<patch>.img.zip` with numeric components;
case-variant, partial, or proper-superstring names are excluded. -/
theorem c6_filter_exact (dirs : List String) (f : String) :
    f ∈ mcuImagesOf dirs ↔ (f ∈ dirs ∧ mcuShape f) := by
  unfold mcuImagesOf
  rw [List.mem_reverse, List.mem_insertionSort, List.mem_filter]
  constructor
  · rintro ⟨hd, hm⟩
    exact ⟨hd, (matchesMcu_iff f).mp hm⟩
  · rintro ⟨hd, hs⟩
    exact ⟨hd, (matchesMcu_iff f).mpr hs⟩

/-- C6 witness: the full match is kept, the partial match
`mcu_v1.2.img.zip` (and only it) is dropped. -/
theorem c6_filter_witness :
    "mcu_v1.2.3.img.zip" ∈ mcuImagesOf ["mcu_v1.2.img.zip", "mcu_v1.2.3.img.zip"] ∧
      mcuImagesOf ["mcu_v1.2.img.zip", "mcu_v1.2.3.img.zip"] = ["mcu_v1.2.3.img.zip"] := by
  constructor
  · exact (c6_filter_exact ["mcu_v1.2.img.zip", "mcu_v1.2.3.img.zip"]
      "mcu_v1.2.3.img.zip").mpr
      ⟨by decide, ['1'], ['2'], ['3'], by decide, by decide, by decide,
        by decide, by decide, by decide, by decide⟩
  · decide

/-- C7: whenever the filtered-sorted-reversed firmware list is
nonempty, its head (index 0, the file used for `currentVersion` and
auto-selection) belongs to the filtered set and is its maximum under
the lexicographic string order used by `sort()`. -/
theorem c7_newest_is_max (dirs : List String) (f : String)
    (rest : List String) (h : mcuImagesOf dirs = f :: rest) :
    f ∈ dirs.filter (fun s => matchesMcu s) ∧
      ∀ x ∈ dirs.filter (fun s => matchesMcu s), strLe x f = true :=
  mcuImagesOf_head_max dirs f rest h

/-- C7 witness: with exactly `mcu_v1.0.0.img.zip` and
`mcu_v1.2.0.img.zip` present, the `1.2.0` entry is chosen and
dominates the other. -/
theorem c7_newest_witness :
    "mcu_v1.2.0.img.zip" ∈
      List.filter (fun s => matchesMcu s) ["mcu_v1.0.0.img.zip", "mcu_v1.2.0.img.zip"] ∧
      strLe "mcu_v1.0.0.img.zip" "mcu_v1.2.0.img.zip" = true := by
  have h := c7_newest_is_max ["mcu_v1.0.0.img.zip", "mcu_v1.2.0.img.zip"]
    "mcu_v1.2.0.img.zip" ["mcu_v1.0.0.img.zip"] (by decide)
  exact ⟨h.1, h.2 "mcu_v1.0.0.img.zip" (by decide)⟩

/-- C8: `selectImage` evaluates its checks in a fixed order with
first-match-wins: an unsupported extension is an unconditional
rejection (error surfaced, nothing committed, no confirmation);
otherwise no error dialog is shown, at most one confirmation message
is produced (`warningShown` is an `Option`), none exactly when the
image is unsuspicious, and when both the Windows-image heuristic and
`hasMBR = false` hold the Windows message wins. -/
theorem c8_precedence (prev : Option Image) (img : Image) (reply : Bool) :
    (img.supported = false →
      selectImage prev img reply =
        { errorShown := true, warningShown := none, committed := false,
          reselected := false, store := prev }) ∧
    (img.supported = true →
      (selectImage prev img reply).errorShown = false ∧
      ((selectImage prev img reply).warningShown = none ↔
        (img.looksWindows = false ∧ img.hasMBR = true)) ∧
      (img.looksWindows = true →
        (selectImage prev img reply).warningShown = some Warning.windowsImage) ∧
      (img.looksWindows = false → img.hasMBR = false →
        (selectImage prev img reply).warningShown
          = some Warning.missingPartitionTable)) := by
  rcases img with ⟨s, w, m⟩
  cases s <;> cases w <;> cases m <;> cases reply <;> simp [selectImage]

/-- C8 witness: a supported image that both looks like a Windows image
and lacks a partition table gets the Windows-image message. -/
theorem c8_precedence_witness :
    (selectImage none ⟨true, true, false⟩ true).warningShown
      = some Warning.windowsImage :=
  ((c8_precedence none ⟨true, true, false⟩ true).2 rfl).2.2.1 rfl

/-- C9: for a supported image that triggers a confirmation (`hasMBR`
false or looks-like-Windows), a modal reply of `true` leaves the store
untouched (the new image is never committed) and invokes re-selection,
while a reply of `false` commits the new image via `setImage`,
replacing any prior selection. -/
theorem c9_confirmation (prev : Option Image) (img : Image)
    (hs : img.supported = true)
    (ht : img.hasMBR = false ∨ img.looksWindows = true) :
    ((selectImage prev img true).committed = false ∧
      (selectImage prev img true).store = prev ∧
      (selectImage prev img true).reselected = true) ∧
    ((selectImage prev img false).committed = true ∧
      (selectImage prev img false).store = some img ∧
      (selectImage prev img false).reselected = false) := by
  rcases img with ⟨s, w, m⟩
  cases s <;> cases w <;> cases m <;> simp_all [selectImage]

/-- C9 witness: a supported image without a partition table, against a
previously committed selection. -/
theorem c9_confirmation_witness :
    ((selectImage (some ⟨true, false, true⟩) ⟨true, false, false⟩ true).committed = false ∧
      (selectImage (some ⟨true, false, true⟩) ⟨true, false, false⟩ true).store
        = some ⟨true, false, true⟩ ∧
      (selectImage (some ⟨true, false, true⟩) ⟨true, false, false⟩ true).reselected = true) ∧
    ((selectImage (some ⟨true, false, true⟩) ⟨true, false, false⟩ false).committed = true ∧
      (selectImage (some ⟨true, false, true⟩) ⟨true, false, false⟩ false).store
        = some ⟨true, false, false⟩ ∧
      (selectImage (some ⟨true, false, true⟩) ⟨true, false, false⟩ false).reselected = false) :=
  c9_confirmation (some ⟨true, false, true⟩) ⟨true, false, false⟩ rfl (Or.inl rfl)

/-- C10: the two published extension lists partition the registry's
extension set: the main list is exactly the intersection of
`{img, iso, zip}` with `getAllExtensions()`, the extra list is exactly
the remaining extensions sorted ascending, the two are disjoint, and
membership in their union coincides with membership in
`getAllExtensions()`. -/
theorem c10_extension_partition (all : List String) :
    (∀ x : String, x ∈ mainSupportedExtensions all ↔
      (x ∈ (["img", "iso", "zip"] : List String) ∧ x ∈ all)) ∧
    (∀ x : String, x ∈ extraSupportedExtensions all ↔
      (x ∈ all ∧ x ∉ mainSupportedExtensions all)) ∧
    List.Sorted strLeR (extraSupportedExtensions all) ∧
    (∀ x : String, x ∈ mainSupportedExtensions all →
      x ∈ extraSupportedExtensions all → False) ∧
    (∀ x : String, x ∈ all ↔
      (x ∈ mainSupportedExtensions all ∨ x ∈ extraSupportedExtensions all)) := by
  have hmain : ∀ x : String, x ∈ mainSupportedExtensions all ↔
      (x ∈ (["img", "iso", "zip"] : List String) ∧ x ∈ all) := by
    intro x
    rw [mainSupportedExtensions, List.mem_filter, decide_eq_true_eq]
  have hextra : ∀ x : String, x ∈ extraSupportedExtensions all ↔
      (x ∈ all ∧ x ∉ mainSupportedExtensions all) := by
    intro x
    rw [extraSupportedExtensions, List.mem_insertionSort, List.mem_filter]
    simp
  refine ⟨hmain, hextra, List.sorted_insertionSort strLeR _, ?_, ?_⟩
  · intro x h1 h2
    exact ((hextra x).mp h2).2 h1
  · intro x
    constructor
    · intro hx
      by_cases hm : x ∈ mainSupportedExtensions all
      · exact Or.inl hm
      · exact Or.inr ((hextra x).mpr ⟨hx, hm⟩)
    · intro hx
      rcases hx with hm | he
      · exact ((hmain x).mp hm).2
      · exact ((hextra x).mp he).1

/-- C10 witness: for a registry `["zip", "dmg", "img"]`, `img` lands in
the main list and `dmg` in the extra list. -/
theorem c10_extension_witness :
    "img" ∈ mainSupportedExtensions ["zip", "dmg", "img"] ∧
      "dmg" ∈ extraSupportedExtensions ["zip", "dmg", "img"] :=
  ⟨((c10_extension_partition ["zip", "dmg", "img"]).1 "img").mpr ⟨by decide, by decide⟩,
    ((c10_extension_partition ["zip", "dmg", "img"]).2.1 "dmg").mpr ⟨by decide, by decide⟩⟩

end Etcher
